import Mathlib

/-!
# locking-pool: a shallow embedding of `pool.go`

The pool keeps a Go `map[T]bool` (resource ↦ "in use" flag) behind a mutex and
hands resources out with `TryGet` / `Get`, taking them back with `Return`.

Modelling decisions
* `map[T]bool` is an association list in which a key is looked up at its first
  occurrence; `m[k] = v` overwrites that occurrence or appends a new entry.
* `range` over a Go map visits the keys in an unspecified order.  Every
  function that ranges over the map takes that order as an argument `order`
  (the keys in the order the loop visits them); at each key the loop reads the
  flag the map holds for it.
* The body of every method runs with `l.mu` held, so a method body is one
  atomic step on the pool state.
* `l.cond` is represented by the number of `Signal` calls issued so far.
* A Go slice is `Option (List T)`: `none` is the nil slice.
* `panic` is an explicit outcome; a deferred `Unlock` leaves the state as it
  was at the point of the panic.
* The `==` of the `comparable` type `T` is a decidable equality, `DecidableEq T`;
  the zero value of `T` is `default`.
* A sequence of calls is a sequence of such atomic steps.  A `Get` that finds
  nothing free, sleeps and retries takes one step per attempt, each attempt
  being a `TryGet`.
* Where the interleaving inside `Get` matters, a goroutine in `Get` is followed
  statement by statement (`PoolSystem`, `sysStep`): `condMu` is a mutex that is
  held or not, `cond.Wait()` puts the caller on the notify list of `cond` and
  releases `condMu` in one step, and `cond.Signal()` wakes the oldest
  goroutine on that list, or does nothing when the list is empty.
-/

namespace locking_pool

/-! ## Go maps `map[T]bool` -/

/-- A Go `map[T]bool`, as an association list read at the first occurrence of a key. -/
abbrev GoMap (T : Type) := List (T × Bool)

/-- The two-valued read `v, ok := m[k]`: `none` when the key is absent. -/
def mapLookup {T : Type} [DecidableEq T] : GoMap T → T → Option Bool
  | [], _ => none
  | (k, b) :: m, x => if k = x then some b else mapLookup m x

/-- The assignment `m[k] = v`: overwrite the entry of `k`, or add one. -/
def mapAssign {T : Type} [DecidableEq T] : GoMap T → T → Bool → GoMap T
  | [], x, v => [(x, v)]
  | (k, b) :: m, x, v => if k = x then (k, v) :: m else (k, b) :: mapAssign m x v

/-- The keys of the map, one per entry. -/
def mapKeys {T : Type} (m : GoMap T) : List T := m.map Prod.fst

/-! ## Go slices -/

/-- A Go slice `[]T`; `none` is the nil slice. -/
abbrev Slice (T : Type) := Option (List T)

/-- The builtin `len`: it is `0` on the nil slice. -/
def len {T : Type} : Slice T → Nat
  | none => 0
  | some xs => xs.length

/-- The elements a `range` over the slice visits, in order. -/
def elems {T : Type} : Slice T → List T
  | none => []
  | some xs => xs

/-! ## The pool -/

/-- The struct `lockingPoolImpl[T]`.  `objects` is the map resource ↦ in-use flag,
`zeroT` the never-assigned field holding the zero value of `T`, and `signals`
stands for `cond`: the number of `cond.Signal()` calls issued so far. -/
structure lockingPoolImpl (T : Type) where
  objects : GoMap T
  zeroT : T
  signals : Nat
deriving DecidableEq, Repr

/-- How a call that may panic ends. -/
inductive Outcome where
  | done
  | panic (msg : String)
deriving DecidableEq, Repr

/-- The loop `for obj, inUse := range l.objects`, visiting the keys in `order`:
the first key whose flag is `false`, if any. -/
def scanFree {T : Type} [DecidableEq T] (objects : GoMap T) : List T → Option T
  | [] => none
  | obj :: rest =>
    if mapLookup objects obj = some false then some obj else scanFree objects rest

/-- The method `TryGet`, with the order in which the `range` visits the keys. -/
def TryGet {T : Type} [DecidableEq T] (order : List T) (l : lockingPoolImpl T) :
    (Bool × T) × lockingPoolImpl T :=
  match scanFree l.objects order with
  | some obj => ((true, obj), { l with objects := mapAssign l.objects obj true })
  | none => ((false, l.zeroT), l)

/-- The method `Return`. -/
def Return {T : Type} [DecidableEq T] (v : T) (l : lockingPoolImpl T) :
    Outcome × lockingPoolImpl T :=
  match mapLookup l.objects v with
  | none => (Outcome.panic "attempt to return unowned object", l)
  | some _ =>
    (Outcome.done,
      { l with objects := mapAssign l.objects v false, signals := l.signals + 1 })

/-- What a caller sleeping in `cond.Wait()` finds when it is woken: `others` is
what the rest of the program did to the pool meanwhile, `order` the visiting
order of the retry. -/
structure Wakeup (T : Type) where
  others : lockingPoolImpl T → lockingPoolImpl T
  order : List T

/-- The record of a run of `Get`: `result` is the returned resource (`none` while
the caller is still inside `cond.Wait()`), `waits` the number of times the
caller entered `cond.Wait()`, `pool` the pool state left behind. -/
structure GetRun (T : Type) where
  result : Option T
  waits : Nat
  pool : lockingPoolImpl T

/-- The method `Get`: the loop `for { ok, obj := l.TryGet(); if ok { return obj };
cond.Wait() }`.  `order` is the visiting order of the first attempt and
`wakeups` lists the wake-ups the caller receives. -/
def Get {T : Type} [DecidableEq T] :
    List T → lockingPoolImpl T → List (Wakeup T) → GetRun T
  | order, l, wakeups =>
    match TryGet order l with
    | ((true, obj), l1) => { result := some obj, waits := 0, pool := l1 }
    | ((false, _), l1) =>
      match wakeups with
      | [] => { result := none, waits := 1, pool := l1 }
      | w :: rest =>
        let r := Get w.order (w.others l1) rest
        { r with waits := r.waits + 1 }

/-- The constructor `New`. -/
def New {T : Type} [DecidableEq T] [Inhabited T] (items : Slice T) :
    Except String (lockingPoolImpl T) :=
  if len items = 0 then
    Except.error "items cannot be empty or nil"
  else
    Except.ok
      { objects := (elems items).foldl (fun m v => mapAssign m v false) [],
        zeroT := default,
        signals := 0 }

/-! ## Sequences of operations -/

/-- One call on the pool.  `tryGet` and `get` carry the visiting order of their
scan; `get` is a call of `Get` during which nobody else touches the pool. -/
inductive Op (T : Type) where
  | tryGet (order : List T)
  | get (order : List T)
  | ret (v : T)

/-- What a call hands back to its caller. -/
inductive Obs (T : Type) where
  | acquired (obj : T)
  | unavailable
  | blocked
  | returned
  | panicked (msg : String)
deriving DecidableEq, Repr

/-- Run one call. -/
def step {T : Type} [DecidableEq T] (op : Op T) (l : lockingPoolImpl T) :
    Obs T × lockingPoolImpl T :=
  match op with
  | Op.tryGet order =>
    match TryGet order l with
    | ((true, obj), l1) => (Obs.acquired obj, l1)
    | ((false, _), l1) => (Obs.unavailable, l1)
  | Op.get order =>
    let r := Get order l []
    match r.result with
    | some obj => (Obs.acquired obj, r.pool)
    | none => (Obs.blocked, r.pool)
  | Op.ret v =>
    match Return v l with
    | (Outcome.done, l1) => (Obs.returned, l1)
    | (Outcome.panic msg, l1) => (Obs.panicked msg, l1)

/-- Run a sequence of calls, left to right. -/
def run {T : Type} [DecidableEq T] : List (Op T) → lockingPoolImpl T → lockingPoolImpl T
  | [], l => l
  | op :: ops, l => run ops (step op l).2

/-- The number of entries of the map whose flag is `true`. -/
def inUseCount {T : Type} (l : lockingPoolImpl T) : Nat :=
  (l.objects.filter (fun e => e.2)).length

/-- Every flag the map holds is `false`. -/
def AllFree {T : Type} [DecidableEq T] (m : GoMap T) : Prop :=
  ∀ k b, mapLookup m k = some b → b = false

/-- The loop `obj := p.Get(); p.Return(obj)` of `TestGetReturn`, run `k` times
with nobody else touching the pool: the records of the `Get` calls, in order,
and the pool left behind.  The rounds stop at a `Get` that does not return. -/
def getReturnRounds {T : Type} [DecidableEq T] :
    Nat → List T → lockingPoolImpl T → List (GetRun T) × lockingPoolImpl T
  | 0, _, l => ([], l)
  | k + 1, order, l =>
    match (Get order l []).result with
    | none => ([Get order l []], (Get order l []).pool)
    | some obj =>
      (Get order l [] :: (getReturnRounds k order (Return obj (Get order l []).pool).2).1,
        (getReturnRounds k order (Return obj (Get order l []).pool).2).2)

/-- The tracked resources whose flag is `false`. -/
def freeKeys {T : Type} [DecidableEq T] (l : lockingPoolImpl T) : List T :=
  (mapKeys l.objects).filter (fun k => decide (mapLookup l.objects k = some false))

/-- Consecutive calls of `TryGet`, one per visiting order: the results in order
and the pool left behind. -/
def tryGets {T : Type} [DecidableEq T] :
    List (List T) → lockingPoolImpl T → List (Bool × T) × lockingPoolImpl T
  | [], l => ([], l)
  | order :: rest, l =>
    ((TryGet order l).1 :: (tryGets rest (TryGet order l).2).1,
      (tryGets rest (TryGet order l).2).2)

/-! ## Goroutines inside `Get`

`Get` is not one atomic step: between its statements other goroutines run.  A
goroutine executing `Get` is followed statement by statement, with `condMu` a
mutex that is held or not and `cond` the list of goroutines suspended in
`cond.Wait()`. -/

/-- The statement of `Get` a goroutine is about to execute:
`tryGet` is `ok, obj := l.TryGet()`, `condLock` is `l.condMu.Lock()`, `condWait`
is `l.cond.Wait()` (called holding `condMu`), `asleep` is suspended inside
`Wait` with `condMu` released, `woken` is signalled and about to lock `condMu`
again before `Wait` returns, `condUnlock` is `l.condMu.Unlock()`, and
`returned obj` is after `return obj`. -/
inductive GetPc (T : Type) where
  | tryGet
  | condLock
  | condWait
  | asleep
  | woken
  | condUnlock
  | returned (obj : T)
deriving DecidableEq, Repr

/-- The pool and the goroutines executing `Get` on it.  `condMuHeld` tells
whether `condMu` is locked, `notifyList` lists the goroutines suspended in
`cond.Wait()`, oldest first, and `getters` gives where each goroutine stands. -/
structure PoolSystem (T : Type) where
  pool : lockingPoolImpl T
  condMuHeld : Bool
  notifyList : List Nat
  getters : List (GetPc T)
deriving DecidableEq, Repr

/-- What the scheduler runs next: the next statement of goroutine `i` inside
`Get` (with the visiting order, should that statement be `TryGet`), or a whole
call of `Return` or `TryGet` by some other goroutine. -/
inductive Event (T : Type) where
  | getter (i : Nat) (order : List T)
  | callReturn (v : T)
  | callTryGet (order : List T)

/-- The call `l.cond.Signal()`: wake the longest-suspended goroutine, if there
is one; otherwise nothing happens. -/
def signalOne {T : Type} (s : PoolSystem T) : PoolSystem T :=
  match s.notifyList with
  | [] => s
  | i :: rest => { s with notifyList := rest, getters := s.getters.set i GetPc.woken }

/-- Goroutine `i` executes its next statement of `Get`.  A goroutine that needs
`condMu` while it is held, or that is suspended, does not move. -/
def getterStep {T : Type} [DecidableEq T] (i : Nat) (order : List T) (s : PoolSystem T) :
    PoolSystem T :=
  match s.getters[i]? with
  | none => s
  | some GetPc.tryGet =>
    match TryGet order s.pool with
    | ((true, obj), l1) => { s with pool := l1, getters := s.getters.set i (GetPc.returned obj) }
    | ((false, _), l1) => { s with pool := l1, getters := s.getters.set i GetPc.condLock }
  | some GetPc.condLock =>
    if s.condMuHeld then s
    else { s with condMuHeld := true, getters := s.getters.set i GetPc.condWait }
  | some GetPc.condWait =>
    { s with condMuHeld := false, notifyList := s.notifyList ++ [i],
             getters := s.getters.set i GetPc.asleep }
  | some GetPc.asleep => s
  | some GetPc.woken =>
    if s.condMuHeld then s
    else { s with condMuHeld := true, getters := s.getters.set i GetPc.condUnlock }
  | some GetPc.condUnlock =>
    { s with condMuHeld := false, getters := s.getters.set i GetPc.tryGet }
  | some (GetPc.returned _) => s

/-- One scheduling step.  `Return` runs whole, under `l.mu`, its `Signal`
included. -/
def sysStep {T : Type} [DecidableEq T] (e : Event T) (s : PoolSystem T) : PoolSystem T :=
  match e with
  | Event.getter i order => getterStep i order s
  | Event.callReturn v =>
    match Return v s.pool with
    | (Outcome.done, l1) => signalOne { s with pool := l1 }
    | (Outcome.panic _, l1) => { s with pool := l1 }
  | Event.callTryGet order => { s with pool := (TryGet order s.pool).2 }

/-- Run a schedule, left to right. -/
def runSys {T : Type} [DecidableEq T] : List (Event T) → PoolSystem T → PoolSystem T
  | [], s => s
  | e :: es, s => runSys es (sysStep e s)

/-- The start of `TestConcurrentLocking`: the pool `New([]int{1})` and two
goroutines, `0` (consumer A) and `1` (consumer B), each about to run `Get`. -/
def concurrentLockingStart : PoolSystem Nat :=
  { pool := { objects := [(1, false)], zeroT := 0, signals := 0 },
    condMuHeld := false,
    notifyList := [],
    getters := [GetPc.tryGet, GetPc.tryGet] }

/-! ## Facts about Go maps -/

theorem mapLookup_assign_self {T : Type} [DecidableEq T] (m : GoMap T) (k : T) (v : Bool) :
    mapLookup (mapAssign m k v) k = some v := by
  induction m with
  | nil => simp [mapAssign, mapLookup]
  | cons e m ih =>
    obtain ⟨a, b⟩ := e
    by_cases h : a = k
    · simp [mapAssign, mapLookup, h]
    · simp [mapAssign, mapLookup, h, ih]

theorem mapLookup_assign_ne {T : Type} [DecidableEq T] (m : GoMap T) (k x : T) (v : Bool)
    (hx : x ≠ k) : mapLookup (mapAssign m k v) x = mapLookup m x := by
  induction m with
  | nil =>
    have hk : ¬ k = x := fun h => hx h.symm
    simp [mapAssign, mapLookup, hk]
  | cons e m ih =>
    obtain ⟨a, b⟩ := e
    by_cases h : a = k
    · subst h
      have hk : ¬ a = x := fun h => hx h.symm
      simp [mapAssign, mapLookup, hk]
    · by_cases h2 : a = x
      · subst h2
        simp [mapAssign, mapLookup, h]
      · simp [mapAssign, mapLookup, h, h2, ih]

theorem mapLookup_ne_none_iff {T : Type} [DecidableEq T] (m : GoMap T) (k : T) :
    mapLookup m k ≠ none ↔ k ∈ mapKeys m := by
  induction m with
  | nil => simp [mapLookup, mapKeys]
  | cons e m ih =>
    obtain ⟨a, b⟩ := e
    by_cases h : a = k
    · simp [mapLookup, mapKeys, h]
    · have h2 : ¬ k = a := fun h3 => h h3.symm
      have ih2 : mapLookup m k ≠ none ↔ ∃ c, (k, c) ∈ m := by
        simpa [mapKeys] using ih
      simp [mapLookup, mapKeys, h, h2, ih2]

theorem mapLookup_eq_none_iff {T : Type} [DecidableEq T] (m : GoMap T) (k : T) :
    mapLookup m k = none ↔ k ∉ mapKeys m := by
  rw [← mapLookup_ne_none_iff]
  exact not_not.symm

theorem mapKeys_assign_of_mem {T : Type} [DecidableEq T] (m : GoMap T) (k : T) (v : Bool)
    (hk : k ∈ mapKeys m) : mapKeys (mapAssign m k v) = mapKeys m := by
  induction m with
  | nil => simp [mapKeys] at hk
  | cons e m ih =>
    obtain ⟨a, b⟩ := e
    by_cases h : a = k
    · simp [mapAssign, mapKeys, h]
    · have hk2 : k ∈ mapKeys m := by
        have h2 : ¬ k = a := fun h3 => h h3.symm
        simpa [mapKeys, h2] using hk
      have ih2 := ih hk2
      simp only [mapKeys] at ih2
      simp [mapAssign, mapKeys, h, ih2]

theorem mapAssign_same {T : Type} [DecidableEq T] (m : GoMap T) (k : T) (v : Bool)
    (hk : mapLookup m k = some v) : mapAssign m k v = m := by
  induction m with
  | nil => simp [mapLookup] at hk
  | cons e m ih =>
    obtain ⟨a, b⟩ := e
    by_cases h : a = k
    · simp [mapLookup, h] at hk
      simp [mapAssign, h, hk]
    · simp [mapLookup, h] at hk
      simp [mapAssign, h, ih hk]

theorem mem_mapKeys_of_lookup {T : Type} [DecidableEq T] (m : GoMap T) (k : T) (b : Bool)
    (hk : mapLookup m k = some b) : k ∈ mapKeys m := by
  rw [← mapLookup_ne_none_iff, hk]
  simp

/-! ## Facts about the scan of `TryGet` -/

theorem scanFree_some {T : Type} [DecidableEq T] (m : GoMap T) (order : List T) (r : T)
    (h : scanFree m order = some r) : r ∈ order ∧ mapLookup m r = some false := by
  induction order with
  | nil => simp [scanFree] at h
  | cons a rest ih =>
    by_cases ha : mapLookup m a = some false
    · simp [scanFree, ha] at h
      subst h
      exact ⟨List.mem_cons_self _ _, ha⟩
    · simp [scanFree, ha] at h
      exact ⟨List.mem_cons_of_mem _ (ih h).1, (ih h).2⟩

theorem scanFree_none {T : Type} [DecidableEq T] (m : GoMap T) (order : List T)
    (h : scanFree m order = none) : ∀ k ∈ order, mapLookup m k ≠ some false := by
  induction order with
  | nil => simp
  | cons a rest ih =>
    by_cases ha : mapLookup m a = some false
    · simp [scanFree, ha] at h
    · simp [scanFree, ha] at h
      intro k hk
      rcases List.mem_cons.mp hk with rfl | hk2
      · exact ha
      · exact ih h k hk2

theorem scanFree_eq_none_of_no_free {T : Type} [DecidableEq T] (m : GoMap T) (order : List T)
    (h : ∀ k ∈ mapKeys m, mapLookup m k ≠ some false) : scanFree m order = none := by
  cases hs : scanFree m order with
  | none => rfl
  | some r =>
    have hr := (scanFree_some m order r hs).2
    exact absurd hr (h r (mem_mapKeys_of_lookup m r false hr))

theorem scanFree_finds {T : Type} [DecidableEq T] (m : GoMap T) (order : List T)
    (horder : order.Perm (mapKeys m))
    (hfree : ∃ k ∈ mapKeys m, mapLookup m k = some false) :
    ∃ r, scanFree m order = some r := by
  cases hs : scanFree m order with
  | none =>
    obtain ⟨k, hk, hkf⟩ := hfree
    exact absurd hkf (scanFree_none m order hs k (horder.mem_iff.mpr hk))
  | some r => exact ⟨r, rfl⟩

theorem TryGet_keys {T : Type} [DecidableEq T] (order : List T) (l : lockingPoolImpl T) :
    mapKeys (TryGet order l).2.objects = mapKeys l.objects := by
  cases hs : scanFree l.objects order with
  | none => simp [TryGet, hs]
  | some r =>
    have hmem : r ∈ mapKeys l.objects :=
      mem_mapKeys_of_lookup l.objects r false (scanFree_some l.objects order r hs).2
    simp [TryGet, hs, mapKeys_assign_of_mem _ _ _ hmem]

theorem TryGet_true {T : Type} [DecidableEq T] (order : List T) (l : lockingPoolImpl T) (r : T)
    (h : (TryGet order l).1 = (true, r)) :
    scanFree l.objects order = some r
      ∧ (TryGet order l).2 = { l with objects := mapAssign l.objects r true } := by
  cases hs : scanFree l.objects order with
  | none => simp [TryGet, hs] at h
  | some x =>
    simp [TryGet, hs] at h
    subst h
    simp [TryGet, hs]

/-! ## Facts about `Return` -/

theorem Return_keys {T : Type} [DecidableEq T] (v : T) (l : lockingPoolImpl T) :
    mapKeys (Return v l).2.objects = mapKeys l.objects := by
  cases hv : mapLookup l.objects v with
  | none => simp [Return, hv]
  | some b =>
    simp [Return, hv, mapKeys_assign_of_mem _ _ _ (mem_mapKeys_of_lookup l.objects v b hv)]

theorem Return_panic_iff {T : Type} [DecidableEq T] (v : T) (l : lockingPoolImpl T) :
    (∃ msg, (Return v l).1 = Outcome.panic msg) ↔ v ∉ mapKeys l.objects := by
  rw [← mapLookup_eq_none_iff]
  cases hv : mapLookup l.objects v with
  | none => simp [Return, hv]
  | some b => simp [Return, hv]

theorem Return_panic_state {T : Type} [DecidableEq T] (v : T) (l : lockingPoolImpl T)
    (msg : String) (h : (Return v l).1 = Outcome.panic msg) : (Return v l).2 = l := by
  cases hv : mapLookup l.objects v with
  | none => simp [Return, hv]
  | some b => simp [Return, hv] at h

/-! ## Facts about `Get` -/

theorem Get_of_TryGet_true {T : Type} [DecidableEq T] (order : List T) (l : lockingPoolImpl T)
    (wakeups : List (Wakeup T)) (r : T) (h : (TryGet order l).1 = (true, r)) :
    Get order l wakeups = { result := some r, waits := 0, pool := (TryGet order l).2 } := by
  unfold Get
  generalize TryGet order l = t at h
  obtain ⟨⟨b, obj⟩, l1⟩ := t
  simp only [Prod.mk.injEq] at h
  obtain ⟨hb, ho⟩ := h
  subst hb
  subst ho
  rfl

theorem Get_nil_of_TryGet_false {T : Type} [DecidableEq T] (order : List T)
    (l : lockingPoolImpl T) (h : (TryGet order l).1.1 = false) :
    Get order l [] = { result := none, waits := 1, pool := (TryGet order l).2 } := by
  unfold Get
  generalize TryGet order l = t at h
  obtain ⟨⟨b, obj⟩, l1⟩ := t
  simp only at h
  subst h
  rfl

theorem Get_nil_pool {T : Type} [DecidableEq T] (order : List T) (l : lockingPoolImpl T) :
    (Get order l []).pool = (TryGet order l).2 := by
  cases hb : (TryGet order l).1.1 with
  | false => rw [Get_nil_of_TryGet_false order l hb]
  | true =>
    have h : (TryGet order l).1 = (true, (TryGet order l).1.2) := by
      rw [← hb]
    rw [Get_of_TryGet_true order l [] _ h]

/-! ## Facts about sequences of calls -/

theorem step_tryGet_pool {T : Type} [DecidableEq T] (order : List T) (l : lockingPoolImpl T) :
    (step (Op.tryGet order) l).2 = (TryGet order l).2 := by
  simp only [step]
  split <;> simp_all

theorem step_get_pool {T : Type} [DecidableEq T] (order : List T) (l : lockingPoolImpl T) :
    (step (Op.get order) l).2 = (TryGet order l).2 := by
  rw [← Get_nil_pool]
  simp only [step]
  split <;> rfl

theorem step_ret_pool {T : Type} [DecidableEq T] (v : T) (l : lockingPoolImpl T) :
    (step (Op.ret v) l).2 = (Return v l).2 := by
  simp only [step]
  split <;> simp_all

theorem step_keys {T : Type} [DecidableEq T] (op : Op T) (l : lockingPoolImpl T) :
    mapKeys (step op l).2.objects = mapKeys l.objects := by
  cases op with
  | tryGet order => rw [step_tryGet_pool, TryGet_keys]
  | get order => rw [step_get_pool, TryGet_keys]
  | ret v => rw [step_ret_pool, Return_keys]

theorem run_keys {T : Type} [DecidableEq T] (ops : List (Op T)) (l : lockingPoolImpl T) :
    mapKeys (run ops l).objects = mapKeys l.objects := by
  induction ops generalizing l with
  | nil => rfl
  | cons op ops ih => rw [run, ih, step_keys]

theorem run_append {T : Type} [DecidableEq T] (xs ys : List (Op T)) (l : lockingPoolImpl T) :
    run (xs ++ ys) l = run ys (run xs l) := by
  induction xs generalizing l with
  | nil => rfl
  | cons op xs ih => simp [run, ih]

/-! ## The contract of `TryGet` -/

/-- C1: in a pool state with a free tracked resource, for every order in which
the scan may visit the keys, `TryGet` returns `(true, r)` with `r` tracked and
free before the call; afterwards `r` is in use, every other flag, the tracked
keys and the rest of the pool are as before. -/
theorem TryGet_free {T : Type} [DecidableEq T] (order : List T) (l : lockingPoolImpl T)
    (horder : order.Perm (mapKeys l.objects))
    (hfree : ∃ k ∈ mapKeys l.objects, mapLookup l.objects k = some false) :
    ∃ r, (TryGet order l).1 = (true, r)
      ∧ r ∈ mapKeys l.objects
      ∧ mapLookup l.objects r = some false
      ∧ mapLookup (TryGet order l).2.objects r = some true
      ∧ (∀ k, k ≠ r → mapLookup (TryGet order l).2.objects k = mapLookup l.objects k)
      ∧ mapKeys (TryGet order l).2.objects = mapKeys l.objects
      ∧ (TryGet order l).2.zeroT = l.zeroT
      ∧ (TryGet order l).2.signals = l.signals := by
  obtain ⟨r, hs⟩ := scanFree_finds l.objects order horder hfree
  have hr := scanFree_some l.objects order r hs
  have hmem : r ∈ mapKeys l.objects := mem_mapKeys_of_lookup l.objects r false hr.2
  refine ⟨r, ?_, hmem, hr.2, ?_, ?_, ?_, ?_, ?_⟩
  · simp [TryGet, hs]
  · simp [TryGet, hs, mapLookup_assign_self]
  · intro k hk
    simp [TryGet, hs, mapLookup_assign_ne _ _ _ _ hk]
  · simp [TryGet, hs, mapKeys_assign_of_mem _ _ _ hmem]
  · simp [TryGet, hs]
  · simp [TryGet, hs]

theorem TryGet_free_witness :
    ([2, 1] : List Nat).Perm (mapKeys [(1, false), (2, false)])
    ∧ ∃ r, (TryGet [2, 1] (⟨[(1, false), (2, false)], 0, 0⟩ : lockingPoolImpl Nat)).1 = (true, r)
      ∧ r ∈ mapKeys [(1, false), (2, false)]
      ∧ mapLookup [(1, false), (2, false)] r = some false
      ∧ mapLookup (TryGet [2, 1] (⟨[(1, false), (2, false)], 0, 0⟩ : lockingPoolImpl Nat)).2.objects r
          = some true
      ∧ (∀ k, k ≠ r →
          mapLookup (TryGet [2, 1] (⟨[(1, false), (2, false)], 0, 0⟩ : lockingPoolImpl Nat)).2.objects k
            = mapLookup [(1, false), (2, false)] k)
      ∧ mapKeys (TryGet [2, 1] (⟨[(1, false), (2, false)], 0, 0⟩ : lockingPoolImpl Nat)).2.objects
          = mapKeys [(1, false), (2, false)]
      ∧ (TryGet [2, 1] (⟨[(1, false), (2, false)], 0, 0⟩ : lockingPoolImpl Nat)).2.zeroT = 0
      ∧ (TryGet [2, 1] (⟨[(1, false), (2, false)], 0, 0⟩ : lockingPoolImpl Nat)).2.signals = 0 :=
  ⟨by decide,
   TryGet_free [2, 1] ⟨[(1, false), (2, false)], 0, 0⟩ (by decide) ⟨1, by decide, by decide⟩⟩

/-- C2: in a pool state where no tracked resource is free, `TryGet` returns
`(false, zero value of T)` and leaves the pool exactly as it was, whatever the
visiting order.  The field `zeroT` is never assigned, so it holds the zero
value `default`. -/
theorem TryGet_none_free {T : Type} [DecidableEq T] [Inhabited T] (order : List T)
    (l : lockingPoolImpl T) (hzero : l.zeroT = default)
    (hnone : ∀ k ∈ mapKeys l.objects, mapLookup l.objects k ≠ some false) :
    TryGet order l = ((false, default), l) := by
  simp [TryGet, scanFree_eq_none_of_no_free l.objects order hnone, hzero]

theorem TryGet_none_free_witness :
    (0 : Nat) = default
    ∧ (∀ k ∈ mapKeys ([(1, true), (2, true)] : GoMap Nat),
        mapLookup [(1, true), (2, true)] k ≠ some false)
    ∧ TryGet [1, 2] (⟨[(1, true), (2, true)], 0, 0⟩ : lockingPoolImpl Nat)
        = ((false, default), ⟨[(1, true), (2, true)], 0, 0⟩) :=
  ⟨rfl, by decide,
   TryGet_none_free [1, 2] ⟨[(1, true), (2, true)], 0, 0⟩ rfl (by decide)⟩

/-! ## The contract of `Return` -/

/-- C3: for a tracked value `v`, `Return v` does not panic, leaves `v` marked
free, and leaves every other flag and the tracked keys as they were; it issues
one `Signal`. -/
theorem Return_tracked {T : Type} [DecidableEq T] (v : T) (l : lockingPoolImpl T)
    (hv : v ∈ mapKeys l.objects) :
    (Return v l).1 = Outcome.done
      ∧ mapLookup (Return v l).2.objects v = some false
      ∧ (∀ k, k ≠ v → mapLookup (Return v l).2.objects k = mapLookup l.objects k)
      ∧ mapKeys (Return v l).2.objects = mapKeys l.objects
      ∧ (Return v l).2.zeroT = l.zeroT
      ∧ (Return v l).2.signals = l.signals + 1 := by
  cases hl : mapLookup l.objects v with
  | none => exact absurd hv ((mapLookup_eq_none_iff l.objects v).mp hl)
  | some b =>
    refine ⟨?_, ?_, ?_, Return_keys v l, ?_, ?_⟩
    · simp [Return, hl]
    · simp [Return, hl, mapLookup_assign_self]
    · intro k hk
      simp [Return, hl, mapLookup_assign_ne _ _ _ _ hk]
    · simp [Return, hl]
    · simp [Return, hl]

theorem Return_tracked_witness :
    (2 : Nat) ∈ mapKeys [(1, false), (2, true), (3, true)]
    ∧ (Return 2 (⟨[(1, false), (2, true), (3, true)], 0, 4⟩ : lockingPoolImpl Nat)).1 = Outcome.done
    ∧ mapLookup (Return 2 (⟨[(1, false), (2, true), (3, true)], 0, 4⟩ : lockingPoolImpl Nat)).2.objects 2
        = some false
    ∧ (∀ k, k ≠ 2 →
        mapLookup (Return 2 (⟨[(1, false), (2, true), (3, true)], 0, 4⟩ : lockingPoolImpl Nat)).2.objects k
          = mapLookup [(1, false), (2, true), (3, true)] k)
    ∧ mapKeys (Return 2 (⟨[(1, false), (2, true), (3, true)], 0, 4⟩ : lockingPoolImpl Nat)).2.objects
        = mapKeys [(1, false), (2, true), (3, true)]
    ∧ (Return 2 (⟨[(1, false), (2, true), (3, true)], 0, 4⟩ : lockingPoolImpl Nat)).2.zeroT = 0
    ∧ (Return 2 (⟨[(1, false), (2, true), (3, true)], 0, 4⟩ : lockingPoolImpl Nat)).2.signals = 4 + 1 :=
  ⟨by decide, Return_tracked 2 ⟨[(1, false), (2, true), (3, true)], 0, 4⟩ (by decide)⟩

/-! ## Facts about `New` -/

theorem mem_mapKeys_assign {T : Type} [DecidableEq T] (m : GoMap T) (k x : T) (v : Bool) :
    x ∈ mapKeys (mapAssign m k v) ↔ x = k ∨ x ∈ mapKeys m := by
  rw [← mapLookup_ne_none_iff, ← mapLookup_ne_none_iff]
  by_cases hx : x = k
  · subst hx
    simp [mapLookup_assign_self]
  · simp [mapLookup_assign_ne m k x v hx, hx]

theorem mapKeys_assign_of_not_mem {T : Type} [DecidableEq T] (m : GoMap T) (k : T) (v : Bool)
    (hk : k ∉ mapKeys m) : mapKeys (mapAssign m k v) = mapKeys m ++ [k] := by
  induction m with
  | nil => simp [mapAssign, mapKeys]
  | cons e m ih =>
    obtain ⟨a, b⟩ := e
    have hne : ¬ a = k := by
      intro h
      apply hk
      simp [mapKeys, h]
    have hk2 : k ∉ mapKeys m := by
      intro h
      apply hk
      simp only [mapKeys, List.map_cons, List.mem_cons]
      exact Or.inr h
    have ih2 := ih hk2
    simp only [mapKeys] at ih2
    simp [mapAssign, mapKeys, hne, ih2]

theorem mem_mapKeys_foldl {T : Type} [DecidableEq T] (items : List T) (m : GoMap T) (x : T) :
    x ∈ mapKeys (items.foldl (fun m v => mapAssign m v false) m) ↔ x ∈ mapKeys m ∨ x ∈ items := by
  induction items generalizing m with
  | nil => simp
  | cons a rest ih =>
    rw [List.foldl_cons, ih, mem_mapKeys_assign]
    simp only [List.mem_cons]
    tauto

theorem mapKeys_foldl_nodup {T : Type} [DecidableEq T] (items : List T) (m : GoMap T)
    (hnd : items.Nodup) (hdis : ∀ x ∈ items, x ∉ mapKeys m) :
    mapKeys (items.foldl (fun m v => mapAssign m v false) m) = mapKeys m ++ items := by
  induction items generalizing m with
  | nil => simp
  | cons a rest ih =>
    rw [List.foldl_cons]
    have ha : a ∉ mapKeys m := hdis a (List.mem_cons_self _ _)
    have hnd2 := List.nodup_cons.mp hnd
    rw [ih (mapAssign m a false) hnd2.2, mapKeys_assign_of_not_mem m a false ha]
    · simp
    · intro x hx hmem
      rcases (mem_mapKeys_assign m a x false).mp hmem with h | h
      · subst h
        exact hnd2.1 hx
      · exact hdis x (List.mem_cons_of_mem _ hx) h

theorem allFree_assign {T : Type} [DecidableEq T] (m : GoMap T) (k : T) (h : AllFree m) :
    AllFree (mapAssign m k false) := by
  intro x b hx
  by_cases hxk : x = k
  · subst hxk
    rw [mapLookup_assign_self] at hx
    exact (Option.some.inj hx).symm
  · rw [mapLookup_assign_ne m k x false hxk] at hx
    exact h x b hx

theorem allFree_foldl {T : Type} [DecidableEq T] (items : List T) (m : GoMap T)
    (h : AllFree m) : AllFree (items.foldl (fun m v => mapAssign m v false) m) := by
  induction items generalizing m with
  | nil => exact h
  | cons a rest ih =>
    rw [List.foldl_cons]
    exact ih _ (allFree_assign m a h)

theorem New_ok {T : Type} [DecidableEq T] [Inhabited T] (items : Slice T)
    (p : lockingPoolImpl T) (h : New items = Except.ok p) :
    len items ≠ 0
      ∧ p = { objects := (elems items).foldl (fun m v => mapAssign m v false) [],
              zeroT := default, signals := 0 } := by
  by_cases hl : len items = 0
  · simp [New, hl] at h
  · simp [New, hl] at h
    exact ⟨hl, h.symm⟩

theorem New_keys {T : Type} [DecidableEq T] [Inhabited T] (items : Slice T)
    (p : lockingPoolImpl T) (h : New items = Except.ok p) (k : T) :
    k ∈ mapKeys p.objects ↔ k ∈ elems items := by
  rw [(New_ok items p h).2]
  show k ∈ mapKeys ((elems items).foldl (fun m v => mapAssign m v false) []) ↔ _
  rw [mem_mapKeys_foldl]
  simp [mapKeys]

theorem New_allFree {T : Type} [DecidableEq T] [Inhabited T] (items : Slice T)
    (p : lockingPoolImpl T) (h : New items = Except.ok p) : AllFree p.objects := by
  rw [(New_ok items p h).2]
  apply allFree_foldl
  intro k b hk
  simp [mapLookup] at hk

theorem New_some_ok {T : Type} [DecidableEq T] [Inhabited T] (items : List T)
    (hne : items ≠ []) :
    New (some items)
      = Except.ok { objects := items.foldl (fun m v => mapAssign m v false) [],
                    zeroT := default, signals := 0 } := by
  have hl : ¬ len (some items) = 0 := by
    simpa [len] using hne
  simp [New, hl, elems]

theorem New_keys_nodup {T : Type} [DecidableEq T] [Inhabited T] (items : List T)
    (p : lockingPoolImpl T) (h : New (some items) = Except.ok p) (hnd : items.Nodup) :
    mapKeys p.objects = items := by
  rw [(New_ok (some items) p h).2]
  show mapKeys (items.foldl (fun m v => mapAssign m v false) []) = items
  rw [mapKeys_foldl_nodup items [] hnd (by simp [mapKeys])]
  simp [mapKeys]

/-! ## The contract of `Return`, continued, and of `New` -/

/-- C4: on a pool built by `New items` and driven by any sequence of calls,
`Return v` panics exactly when `v` is not tracked, which is exactly when `v`
does not occur in `items`; when it panics the pool state, the count of issued
signals included, is unchanged. -/
theorem Return_panics_iff_unowned {T : Type} [DecidableEq T] [Inhabited T]
    (items : Slice T) (p : lockingPoolImpl T) (hnew : New items = Except.ok p)
    (ops : List (Op T)) (v : T) :
    ((∃ msg, (Return v (run ops p)).1 = Outcome.panic msg) ↔ v ∉ mapKeys (run ops p).objects)
      ∧ ((∃ msg, (Return v (run ops p)).1 = Outcome.panic msg) ↔ v ∉ elems items)
      ∧ (∀ msg, (Return v (run ops p)).1 = Outcome.panic msg →
          (Return v (run ops p)).2 = run ops p
            ∧ (Return v (run ops p)).2.signals = (run ops p).signals) := by
  refine ⟨Return_panic_iff v (run ops p), ?_, ?_⟩
  · rw [Return_panic_iff, run_keys, New_keys items p hnew]
  · intro msg hmsg
    have hst := Return_panic_state v (run ops p) msg hmsg
    exact ⟨hst, by rw [hst]⟩

theorem Return_panics_iff_unowned_witness :
    (New (some [1, 2]) : Except String (lockingPoolImpl Nat))
        = Except.ok ⟨[(1, false), (2, false)], 0, 0⟩
    ∧ ((∃ msg, (Return 7 (run [Op.tryGet [2, 1], Op.ret 2, Op.ret 5]
          (⟨[(1, false), (2, false)], 0, 0⟩ : lockingPoolImpl Nat))).1 = Outcome.panic msg)
        ↔ 7 ∉ mapKeys (run [Op.tryGet [2, 1], Op.ret 2, Op.ret 5]
          (⟨[(1, false), (2, false)], 0, 0⟩ : lockingPoolImpl Nat)).objects)
    ∧ ((∃ msg, (Return 7 (run [Op.tryGet [2, 1], Op.ret 2, Op.ret 5]
          (⟨[(1, false), (2, false)], 0, 0⟩ : lockingPoolImpl Nat))).1 = Outcome.panic msg)
        ↔ 7 ∉ elems (some [1, 2]))
    ∧ (∀ msg, (Return 7 (run [Op.tryGet [2, 1], Op.ret 2, Op.ret 5]
          (⟨[(1, false), (2, false)], 0, 0⟩ : lockingPoolImpl Nat))).1 = Outcome.panic msg →
        (Return 7 (run [Op.tryGet [2, 1], Op.ret 2, Op.ret 5]
            (⟨[(1, false), (2, false)], 0, 0⟩ : lockingPoolImpl Nat))).2
          = run [Op.tryGet [2, 1], Op.ret 2, Op.ret 5] ⟨[(1, false), (2, false)], 0, 0⟩
        ∧ (Return 7 (run [Op.tryGet [2, 1], Op.ret 2, Op.ret 5]
            (⟨[(1, false), (2, false)], 0, 0⟩ : lockingPoolImpl Nat))).2.signals
          = (run [Op.tryGet [2, 1], Op.ret 2, Op.ret 5]
              (⟨[(1, false), (2, false)], 0, 0⟩ : lockingPoolImpl Nat)).signals) :=
  ⟨rfl,
   Return_panics_iff_unowned (some [1, 2]) ⟨[(1, false), (2, false)], 0, 0⟩ (by rfl)
     [Op.tryGet [2, 1], Op.ret 2, Op.ret 5] 7⟩

/-- C5: `New items` panics if and only if `items` is nil or has length zero; on
every other slice it returns a pool. -/
theorem New_panics_iff_empty {T : Type} [DecidableEq T] [Inhabited T] (items : Slice T) :
    ((∃ msg, (New items : Except String (lockingPoolImpl T)) = Except.error msg)
        ↔ (items = none ∨ len items = 0))
      ∧ (¬ (items = none ∨ len items = 0) →
          ∃ p : lockingPoolImpl T, New items = Except.ok p) := by
  have hnil : (items = none ∨ len items = 0) ↔ len items = 0 := by
    constructor
    · rintro (h | h)
      · subst h
        rfl
      · exact h
    · exact Or.inr
  rw [hnil]
  by_cases hl : len items = 0
  · simp [New, hl]
  · simp [New, hl]

/-- C6: for a non-empty list `items`, `New` returns a pool that tracks exactly
the values occurring in `items`, with every tracked resource marked free (and
no key held twice, the zero value in `zeroT`, no signal issued). -/
theorem New_tracks_items {T : Type} [DecidableEq T] [Inhabited T] (items : List T)
    (hne : items ≠ []) :
    ∃ p : lockingPoolImpl T, New (some items) = Except.ok p
      ∧ (∀ k, k ∈ mapKeys p.objects ↔ k ∈ items)
      ∧ (∀ k ∈ mapKeys p.objects, mapLookup p.objects k = some false)
      ∧ p.zeroT = default
      ∧ p.signals = 0 := by
  refine ⟨_, New_some_ok items hne, ?_, ?_, rfl, rfl⟩
  · intro k
    exact New_keys (some items) _ (New_some_ok items hne) k
  · intro k hk
    have hfree := New_allFree (some items) _ (New_some_ok items hne)
    cases hl : mapLookup (items.foldl (fun m v => mapAssign m v false) []) k with
    | none => exact absurd hk ((mapLookup_eq_none_iff _ k).mp hl)
    | some b => rw [hfree k b hl]

theorem New_tracks_items_witness :
    ([3, 1, 3] : List Nat) ≠ []
    ∧ ∃ p : lockingPoolImpl Nat, New (some [3, 1, 3]) = Except.ok p
      ∧ (∀ k, k ∈ mapKeys p.objects ↔ k ∈ [3, 1, 3])
      ∧ (∀ k ∈ mapKeys p.objects, mapLookup p.objects k = some false)
      ∧ p.zeroT = default
      ∧ p.signals = 0 :=
  ⟨by decide, New_tracks_items [3, 1, 3] (by decide)⟩

/-! ## Acquisitions in a sequence of calls -/

theorem step_acquired {T : Type} [DecidableEq T] (op : Op T) (l : lockingPoolImpl T) (r : T)
    (h : (step op l).1 = Obs.acquired r) :
    ∃ order, (op = Op.tryGet order ∨ op = Op.get order) ∧ (TryGet order l).1 = (true, r) := by
  cases op with
  | tryGet order =>
    refine ⟨order, Or.inl rfl, ?_⟩
    simp only [step] at h
    split at h
    · rename_i obj l1 heq
      simp only [Obs.acquired.injEq] at h
      rw [heq, h]
    · simp at h
  | get order =>
    refine ⟨order, Or.inr rfl, ?_⟩
    cases hb : (TryGet order l).1.1 with
    | false =>
      simp [step, Get_nil_of_TryGet_false order l hb] at h
    | true =>
      have ht : (TryGet order l).1 = (true, (TryGet order l).1.2) := by
        rw [← hb]
      simp [step, Get_of_TryGet_true order l [] _ ht] at h
      rw [← h]
      exact ht
  | ret v =>
    simp only [step] at h
    split at h <;> simp at h

theorem step_acquired_flags {T : Type} [DecidableEq T] (op : Op T) (l : lockingPoolImpl T)
    (r : T) (h : (step op l).1 = Obs.acquired r) :
    mapLookup l.objects r = some false ∧ mapLookup (step op l).2.objects r = some true := by
  obtain ⟨order, hop, ht⟩ := step_acquired op l r h
  have hs := TryGet_true order l r ht
  have hpool : (step op l).2 = (TryGet order l).2 := by
    rcases hop with rfl | rfl
    · exact step_tryGet_pool order l
    · exact step_get_pool order l
  refine ⟨(scanFree_some l.objects order r hs.1).2, ?_⟩
  rw [hpool, hs.2]
  exact mapLookup_assign_self l.objects r true

theorem TryGet_keeps_held {T : Type} [DecidableEq T] (order : List T) (l : lockingPoolImpl T)
    (r : T) (h : mapLookup l.objects r = some true) :
    mapLookup (TryGet order l).2.objects r = some true := by
  cases hs : scanFree l.objects order with
  | none => simpa [TryGet, hs] using h
  | some x =>
    by_cases hx : r = x
    · subst hx
      simp [TryGet, hs, mapLookup_assign_self]
    · simpa [TryGet, hs, mapLookup_assign_ne l.objects x r true hx] using h

theorem step_keeps_held {T : Type} [DecidableEq T] (op : Op T) (l : lockingPoolImpl T) (r : T)
    (h : mapLookup l.objects r = some true) (hop : op ≠ Op.ret r) :
    mapLookup (step op l).2.objects r = some true := by
  cases op with
  | tryGet order =>
    rw [step_tryGet_pool]
    exact TryGet_keeps_held order l r h
  | get order =>
    rw [step_get_pool]
    exact TryGet_keeps_held order l r h
  | ret v =>
    have hv : r ≠ v := by
      intro hrv
      apply hop
      rw [hrv]
    rw [step_ret_pool]
    cases hl : mapLookup l.objects v with
    | none => simpa [Return, hl] using h
    | some b => simpa [Return, hl, mapLookup_assign_ne l.objects v r false hv] using h

theorem run_keeps_held {T : Type} [DecidableEq T] (ops : List (Op T)) (l : lockingPoolImpl T)
    (r : T) (h : mapLookup l.objects r = some true) (hops : Op.ret r ∉ ops) :
    mapLookup (run ops l).objects r = some true := by
  induction ops generalizing l with
  | nil => exact h
  | cons op ops ih =>
    rw [run]
    apply ih
    · apply step_keeps_held op l r h
      intro hop
      apply hops
      rw [hop]
      exact List.mem_cons_self _ _
    · intro hmem
      exact hops (List.mem_cons_of_mem _ hmem)

/-- C7: mutual exclusion.  In every sequence of calls `pre ++ a :: mid ++ [b]`
run from any pool state, if the calls `a` and `b` are both successful
acquisitions (`TryGet` returning true, or `Get` returning) of the same resource
`r`, then a `Return r` occurs in `mid`, between them. -/
theorem mutual_exclusion {T : Type} [DecidableEq T] (l : lockingPoolImpl T)
    (pre : List (Op T)) (a : Op T) (mid : List (Op T)) (b : Op T) (r : T)
    (ha : (step a (run pre l)).1 = Obs.acquired r)
    (hb : (step b (run (pre ++ a :: mid) l)).1 = Obs.acquired r) :
    Op.ret r ∈ mid := by
  by_contra hnot
  have hheld := (step_acquired_flags a (run pre l) r ha).2
  have hrun : run (pre ++ a :: mid) l = run mid (step a (run pre l)).2 := by
    rw [run_append, run]
  rw [hrun] at hb
  have hstill := run_keeps_held mid _ r hheld hnot
  have hfree := (step_acquired_flags b _ r hb).1
  rw [hstill] at hfree
  simp at hfree

theorem mutual_exclusion_witness :
    (step (Op.get [1, 2]) (run [Op.tryGet [2, 1]]
        (⟨[(1, false), (2, false)], 0, 0⟩ : lockingPoolImpl Nat))).1 = Obs.acquired 1
    ∧ (step (Op.tryGet [2, 1])
        (run ([Op.tryGet [2, 1]] ++ Op.get [1, 2] :: [Op.ret 2, Op.ret 1, Op.get [2, 1]])
          (⟨[(1, false), (2, false)], 0, 0⟩ : lockingPoolImpl Nat))).1 = Obs.acquired 1
    ∧ Op.ret 1 ∈ [Op.ret 2, Op.ret 1, Op.get [2, 1]] :=
  ⟨by decide, by decide,
   mutual_exclusion ⟨[(1, false), (2, false)], 0, 0⟩ [Op.tryGet [2, 1]] (Op.get [1, 2])
     [Op.ret 2, Op.ret 1, Op.get [2, 1]] (Op.tryGet [2, 1]) 1 (by decide) (by decide)⟩

/-! ## The contract of `Get` -/

/-- C8: in a pool state with a free tracked resource, `Get` returns on its
first `TryGet` attempt, never entering `cond.Wait()` (`waits = 0`), whatever
wake-ups follow; the resource it returns was free before the call and is in
use after it, and the pool state left is the one that `TryGet` produces. -/
theorem Get_free {T : Type} [DecidableEq T] (order : List T) (l : lockingPoolImpl T)
    (wakeups : List (Wakeup T))
    (horder : order.Perm (mapKeys l.objects))
    (hfree : ∃ k ∈ mapKeys l.objects, mapLookup l.objects k = some false) :
    ∃ r, Get order l wakeups = { result := some r, waits := 0, pool := (TryGet order l).2 }
      ∧ (TryGet order l).1 = (true, r)
      ∧ mapLookup l.objects r = some false
      ∧ mapLookup (Get order l wakeups).pool.objects r = some true := by
  obtain ⟨r, hs⟩ := scanFree_finds l.objects order horder hfree
  have ht : (TryGet order l).1 = (true, r) := by
    simp [TryGet, hs]
  refine ⟨r, Get_of_TryGet_true order l wakeups r ht, ht,
    (scanFree_some l.objects order r hs).2, ?_⟩
  rw [Get_of_TryGet_true order l wakeups r ht, (TryGet_true order l r ht).2]
  exact mapLookup_assign_self l.objects r true

theorem Get_free_witness :
    ([2, 1] : List Nat).Perm (mapKeys [(1, true), (2, false)])
    ∧ (∃ k ∈ mapKeys ([(1, true), (2, false)] : GoMap Nat),
        mapLookup [(1, true), (2, false)] k = some false)
    ∧ ∃ r, Get [2, 1] (⟨[(1, true), (2, false)], 0, 0⟩ : lockingPoolImpl Nat) []
          = { result := some r, waits := 0,
              pool := (TryGet [2, 1] ⟨[(1, true), (2, false)], 0, 0⟩).2 }
      ∧ (TryGet [2, 1] (⟨[(1, true), (2, false)], 0, 0⟩ : lockingPoolImpl Nat)).1 = (true, r)
      ∧ mapLookup [(1, true), (2, false)] r = some false
      ∧ mapLookup (Get [2, 1] (⟨[(1, true), (2, false)], 0, 0⟩ : lockingPoolImpl Nat) []).pool.objects r
          = some true :=
  ⟨by decide, by decide,
   Get_free [2, 1] ⟨[(1, true), (2, false)], 0, 0⟩ [] (by decide) (by decide)⟩

/-! ## Invariants of the reachable states -/

theorem inUseCount_le_keys {T : Type} (l : lockingPoolImpl T) :
    inUseCount l ≤ (mapKeys l.objects).length := by
  simp only [inUseCount, mapKeys, List.length_map]
  exact List.length_filter_le _ _

/-- C9: for every `N ≥ 1` and every list `items` of `N` distinct resources,
`New items` returns a pool, and every state reached from it by a sequence of
`TryGet`, `Get` and `Return` calls holds exactly the `N` keys of `items`, each
once, and has at most `N` entries marked in use. -/
theorem inUse_le_size {T : Type} [DecidableEq T] [Inhabited T] (N : Nat) (items : List T)
    (hN : 1 ≤ N) (hlen : items.length = N) (hnd : items.Nodup) :
    ∃ p : lockingPoolImpl T, New (some items) = Except.ok p
      ∧ ∀ ops : List (Op T),
          mapKeys (run ops p).objects = items
            ∧ (mapKeys (run ops p).objects).length = N
            ∧ inUseCount (run ops p) ≤ N := by
  have hne : items ≠ [] := by
    intro h
    rw [h] at hlen
    simp at hlen
    omega
  have hok := New_some_ok items hne
  refine ⟨_, hok, ?_⟩
  intro ops
  have hkeys := run_keys ops
    ({ objects := items.foldl (fun m v => mapAssign m v false) [],
       zeroT := default, signals := 0 } : lockingPoolImpl T)
  rw [New_keys_nodup items _ hok hnd] at hkeys
  have hcount := inUseCount_le_keys (run ops
    ({ objects := items.foldl (fun m v => mapAssign m v false) [],
       zeroT := default, signals := 0 } : lockingPoolImpl T))
  rw [hkeys, hlen] at hcount
  exact ⟨hkeys, by rw [hkeys, hlen], hcount⟩

theorem inUse_le_size_witness :
    1 ≤ 2 ∧ ([4, 9] : List Nat).length = 2 ∧ ([4, 9] : List Nat).Nodup
    ∧ ∃ p : lockingPoolImpl Nat, New (some [4, 9]) = Except.ok p
      ∧ ∀ ops : List (Op Nat),
          mapKeys (run ops p).objects = [4, 9]
            ∧ (mapKeys (run ops p).objects).length = 2
            ∧ inUseCount (run ops p) ≤ 2 :=
  ⟨by decide, by decide, by decide,
   inUse_le_size 2 [4, 9] (by decide) (by decide) (by decide)⟩

/-- C10: the tracked set is fixed and non-empty.  No call adds or removes a key,
in any pool state; and every state reached from `New items` by a sequence of
`TryGet`, `Get` and `Return` calls (panicking `Return`s included) tracks
exactly the values of `items`, of which there is at least one. -/
theorem tracked_set_fixed {T : Type} [DecidableEq T] [Inhabited T] (items : Slice T)
    (p : lockingPoolImpl T) (hnew : New items = Except.ok p) (ops : List (Op T)) :
    (∀ (op : Op T) (l : lockingPoolImpl T), mapKeys (step op l).2.objects = mapKeys l.objects)
      ∧ mapKeys (run ops p).objects = mapKeys p.objects
      ∧ (∀ k, k ∈ mapKeys (run ops p).objects ↔ k ∈ elems items)
      ∧ mapKeys (run ops p).objects ≠ [] := by
  refine ⟨step_keys, run_keys ops p, ?_, ?_⟩
  · intro k
    rw [run_keys, New_keys items p hnew]
  · have hl := (New_ok items p hnew).1
    cases items with
    | none => exact absurd rfl hl
    | some xs =>
      cases xs with
      | nil => exact absurd rfl hl
      | cons x rest =>
        intro hnil
        have hx : x ∈ mapKeys (run ops p).objects := by
          rw [run_keys, New_keys (some (x :: rest)) p hnew]
          exact List.mem_cons_self _ _
        rw [hnil] at hx
        simp at hx

theorem tracked_set_fixed_witness :
    (New (some [1, 2]) : Except String (lockingPoolImpl Nat))
        = Except.ok ⟨[(1, false), (2, false)], 0, 0⟩
    ∧ (∀ (op : Op Nat) (l : lockingPoolImpl Nat),
        mapKeys (step op l).2.objects = mapKeys l.objects)
    ∧ mapKeys (run [Op.get [2, 1], Op.ret 5, Op.tryGet [1, 2], Op.get [1, 2], Op.ret 2]
        (⟨[(1, false), (2, false)], 0, 0⟩ : lockingPoolImpl Nat)).objects
        = mapKeys [(1, false), (2, false)]
    ∧ (∀ k, k ∈ mapKeys (run [Op.get [2, 1], Op.ret 5, Op.tryGet [1, 2], Op.get [1, 2], Op.ret 2]
        (⟨[(1, false), (2, false)], 0, 0⟩ : lockingPoolImpl Nat)).objects ↔ k ∈ elems (some [1, 2]))
    ∧ mapKeys (run [Op.get [2, 1], Op.ret 5, Op.tryGet [1, 2], Op.get [1, 2], Op.ret 2]
        (⟨[(1, false), (2, false)], 0, 0⟩ : lockingPoolImpl Nat)).objects ≠ [] :=
  ⟨by rfl,
   tracked_set_fixed (some [1, 2]) ⟨[(1, false), (2, false)], 0, 0⟩ (by rfl)
     [Op.get [2, 1], Op.ret 5, Op.tryGet [1, 2], Op.get [1, 2], Op.ret 2]⟩

/-! ## Scenarios on a single-resource pool, and release after release -/

theorem mapAssign_assign {T : Type} [DecidableEq T] (m : GoMap T) (k : T) (a b : Bool) :
    mapAssign (mapAssign m k a) k b = mapAssign m k b := by
  induction m with
  | nil => simp [mapAssign]
  | cons e m ih =>
    obtain ⟨x, c⟩ := e
    by_cases h : x = k
    · simp [mapAssign, h]
    · simp [mapAssign, h, ih]

theorem New_singleton {T : Type} [DecidableEq T] [Inhabited T] (x : T) :
    (New (some [x]) : Except String (lockingPoolImpl T))
      = Except.ok { objects := [(x, false)], zeroT := default, signals := 0 } := by
  simp [New, len, elems, mapAssign]

theorem TryGet_singleton_free {T : Type} [DecidableEq T] (x z : T) (n : Nat) (order : List T)
    (horder : order.Perm [x]) :
    TryGet order { objects := [(x, false)], zeroT := z, signals := n }
      = ((true, x), { objects := [(x, true)], zeroT := z, signals := n }) := by
  rw [List.perm_singleton.mp horder]
  simp [TryGet, scanFree, mapLookup, mapAssign]

theorem TryGet_singleton_held {T : Type} [DecidableEq T] (x z : T) (n : Nat) (order : List T) :
    TryGet order { objects := [(x, true)], zeroT := z, signals := n }
      = ((false, z), { objects := [(x, true)], zeroT := z, signals := n }) := by
  have hs : scanFree [(x, true)] order = none := by
    apply scanFree_eq_none_of_no_free
    intro k _ hk
    by_cases hxk : x = k
    · simp [mapLookup, hxk] at hk
    · simp [mapLookup, hxk] at hk
  simp [TryGet, hs]

theorem Return_singleton {T : Type} [DecidableEq T] (x z : T) (n : Nat) (b : Bool) :
    Return x { objects := [(x, b)], zeroT := z, signals := n }
      = (Outcome.done, { objects := [(x, false)], zeroT := z, signals := n + 1 }) := by
  simp [Return, mapLookup, mapAssign]

/-- C11: for every resource `x`, on the pool `New [x]`: `Get` returns `x` without
waiting and leaves `x` in use; a following `TryGet` returns `(false, zero
value)` and changes nothing; `Return x` then ends normally and leaves `x` free;
a following `TryGet` returns `(true, x)`. -/
theorem single_resource_scenario {T : Type} [DecidableEq T] [Inhabited T] (x : T)
    (o1 o2 o3 : List T) (ws : List (Wakeup T))
    (h1 : o1.Perm [x]) (h3 : o3.Perm [x]) :
    ∃ p : lockingPoolImpl T, New (some [x]) = Except.ok p
      ∧ (Get o1 p ws).result = some x
      ∧ (Get o1 p ws).waits = 0
      ∧ mapLookup (Get o1 p ws).pool.objects x = some true
      ∧ TryGet o2 (Get o1 p ws).pool = ((false, default), (Get o1 p ws).pool)
      ∧ (Return x (Get o1 p ws).pool).1 = Outcome.done
      ∧ mapLookup (Return x (Get o1 p ws).pool).2.objects x = some false
      ∧ (TryGet o3 (Return x (Get o1 p ws).pool).2).1 = (true, x) := by
  refine ⟨_, New_singleton x, ?_⟩
  have hg := Get_of_TryGet_true o1
    ({ objects := [(x, false)], zeroT := default, signals := 0 } : lockingPoolImpl T) ws x
    (by rw [TryGet_singleton_free x default 0 o1 h1])
  rw [hg, TryGet_singleton_free x default 0 o1 h1]
  simp only
  rw [TryGet_singleton_held, Return_singleton, TryGet_singleton_free x default 1 o3 h3]
  simp [mapLookup]

theorem single_resource_scenario_witness :
    ([1] : List Nat).Perm [1] ∧ ([1] : List Nat).Perm [1]
    ∧ ∃ p : lockingPoolImpl Nat, New (some [1]) = Except.ok p
      ∧ (Get [1] p []).result = some 1
      ∧ (Get [1] p []).waits = 0
      ∧ mapLookup (Get [1] p []).pool.objects 1 = some true
      ∧ TryGet [1] (Get [1] p []).pool = ((false, default), (Get [1] p []).pool)
      ∧ (Return 1 (Get [1] p []).pool).1 = Outcome.done
      ∧ mapLookup (Return 1 (Get [1] p []).pool).2.objects 1 = some false
      ∧ (TryGet [1] (Return 1 (Get [1] p []).pool).2).1 = (true, 1) :=
  ⟨by decide, by decide,
   single_resource_scenario 1 [1] [1] [1] [] (by decide) (by decide)⟩

theorem getReturnRounds_singleton {T : Type} [DecidableEq T] (x z : T) (order : List T)
    (horder : order.Perm [x]) (k n : Nat) :
    (getReturnRounds k order { objects := [(x, false)], zeroT := z, signals := n }).1.length = k
      ∧ (∀ g ∈ (getReturnRounds k order { objects := [(x, false)], zeroT := z, signals := n }).1,
          g.result = some x ∧ g.waits = 0)
      ∧ (getReturnRounds k order { objects := [(x, false)], zeroT := z, signals := n }).2
          = { objects := [(x, false)], zeroT := z, signals := n + k } := by
  induction k generalizing n with
  | zero => simp [getReturnRounds]
  | succ k ih =>
    have hg := Get_of_TryGet_true order
      ({ objects := [(x, false)], zeroT := z, signals := n } : lockingPoolImpl T) [] x
      (by rw [TryGet_singleton_free x z n order horder])
    rw [TryGet_singleton_free x z n order horder] at hg
    simp only [getReturnRounds, hg, Return_singleton]
    obtain ⟨ih1, ih2, ih3⟩ := ih (n + 1)
    refine ⟨by simp [ih1], ?_, ?_⟩
    · intro g hgmem
      rcases List.mem_cons.mp hgmem with rfl | hrest
      · exact ⟨rfl, rfl⟩
      · exact ih2 g hrest
    · rw [ih3]
      simp [Nat.add_assoc, Nat.add_comm 1 k]

/-- C12: round trip on a single-resource pool.  For every resource `x` and every
`k ≥ 1`, `k` rounds of `Get` then `Return` on `New [x]` make `k` calls of `Get`,
each of which returns `x` without entering `cond.Wait()`; the pool is left with
`x` free. -/
theorem get_return_round_trip {T : Type} [DecidableEq T] [Inhabited T] (x : T) (k : Nat)
    (order : List T) (hk : 1 ≤ k) (horder : order.Perm [x]) :
    ∃ p : lockingPoolImpl T, New (some [x]) = Except.ok p
      ∧ (getReturnRounds k order p).1 ≠ []
      ∧ (getReturnRounds k order p).1.length = k
      ∧ (∀ g ∈ (getReturnRounds k order p).1, g.result = some x ∧ g.waits = 0)
      ∧ (getReturnRounds k order p).2.objects = [(x, false)] := by
  refine ⟨_, New_singleton x, ?_⟩
  obtain ⟨h1, h2, h3⟩ := getReturnRounds_singleton x default order horder k 0
  refine ⟨?_, h1, h2, ?_⟩
  · intro hnil
    rw [hnil] at h1
    simp at h1
    omega
  · rw [h3]

theorem get_return_round_trip_witness :
    1 ≤ 3 ∧ ([1] : List Nat).Perm [1]
    ∧ ∃ p : lockingPoolImpl Nat, New (some [1]) = Except.ok p
      ∧ (getReturnRounds 3 [1] p).1 ≠ []
      ∧ (getReturnRounds 3 [1] p).1.length = 3
      ∧ (∀ g ∈ (getReturnRounds 3 [1] p).1, g.result = some 1 ∧ g.waits = 0)
      ∧ (getReturnRounds 3 [1] p).2.objects = [(1, false)] :=
  ⟨by decide, by decide, get_return_round_trip 1 3 [1] (by decide) (by decide)⟩

theorem Return_of_lookup {T : Type} [DecidableEq T] (v : T) (l : lockingPoolImpl T) (b : Bool)
    (h : mapLookup l.objects v = some b) :
    Return v l
      = (Outcome.done,
          { l with objects := mapAssign l.objects v false, signals := l.signals + 1 }) := by
  simp [Return, h]

/-- C13: a double return is a silent no-op.  For a tracked `v`: if `v` is already
marked free, `Return v` does not panic and leaves the pool as it was except for
the one `Signal` it issues; and in any case a second `Return v` does not panic
and leaves the map as the first one left it. -/
theorem double_return_noop {T : Type} [DecidableEq T] (v : T) (l : lockingPoolImpl T)
    (hv : v ∈ mapKeys l.objects) :
    (mapLookup l.objects v = some false →
        Return v l = (Outcome.done, { l with signals := l.signals + 1 }))
      ∧ (Return v (Return v l).2).1 = Outcome.done
      ∧ (Return v (Return v l).2).2.objects = (Return v l).2.objects
      ∧ (Return v (Return v l).2).2.signals = (Return v l).2.signals + 1 := by
  have hfirst : ∃ b, mapLookup l.objects v = some b := by
    cases hl : mapLookup l.objects v with
    | none => exact absurd hv ((mapLookup_eq_none_iff l.objects v).mp hl)
    | some b => exact ⟨b, rfl⟩
  obtain ⟨b, hb⟩ := hfirst
  refine ⟨?_, ?_⟩
  · intro hfree
    rw [Return_of_lookup v l false hfree, mapAssign_same l.objects v false hfree]
  · rw [Return_of_lookup v l b hb]
    have h2 : mapLookup
        ({ l with objects := mapAssign l.objects v false,
                  signals := l.signals + 1 } : lockingPoolImpl T).objects v = some false :=
      mapLookup_assign_self l.objects v false
    rw [Return_of_lookup v _ false h2]
    simp [mapAssign_assign]

theorem double_return_noop_witness :
    (2 : Nat) ∈ mapKeys [(1, true), (2, false)]
    ∧ (mapLookup [(1, true), (2, false)] 2 = some false →
        Return 2 (⟨[(1, true), (2, false)], 0, 3⟩ : lockingPoolImpl Nat)
          = (Outcome.done,
              { (⟨[(1, true), (2, false)], 0, 3⟩ : lockingPoolImpl Nat) with signals := 3 + 1 }))
    ∧ (Return 2 (Return 2 (⟨[(1, true), (2, false)], 0, 3⟩ : lockingPoolImpl Nat)).2).1
        = Outcome.done
    ∧ (Return 2 (Return 2 (⟨[(1, true), (2, false)], 0, 3⟩ : lockingPoolImpl Nat)).2).2.objects
        = (Return 2 (⟨[(1, true), (2, false)], 0, 3⟩ : lockingPoolImpl Nat)).2.objects
    ∧ (Return 2 (Return 2 (⟨[(1, true), (2, false)], 0, 3⟩ : lockingPoolImpl Nat)).2).2.signals
        = (Return 2 (⟨[(1, true), (2, false)], 0, 3⟩ : lockingPoolImpl Nat)).2.signals + 1 :=
  ⟨by decide, double_return_noop 2 ⟨[(1, true), (2, false)], 0, 3⟩ (by decide)⟩

/-- C18: acquire then release restores the state.  If `TryGet` succeeds with `r`,
the `Return r` that follows does not panic and leaves the map (every flag and
the tracked keys) and `zeroT` exactly as before the `TryGet`; only the count
of issued signals has grown by one. -/
theorem tryGet_return_restores {T : Type} [DecidableEq T] (order : List T)
    (l : lockingPoolImpl T) (r : T) (h : (TryGet order l).1 = (true, r)) :
    Return r (TryGet order l).2 = (Outcome.done, { l with signals := l.signals + 1 })
      ∧ (Return r (TryGet order l).2).2.objects = l.objects := by
  obtain ⟨hs, hst⟩ := TryGet_true order l r h
  have hfree := (scanFree_some l.objects order r hs).2
  have hheld : mapLookup (TryGet order l).2.objects r = some true := by
    rw [hst]
    exact mapLookup_assign_self l.objects r true
  have hret := Return_of_lookup r (TryGet order l).2 true hheld
  have hobj : mapAssign (TryGet order l).2.objects r false = l.objects := by
    rw [hst]
    show mapAssign (mapAssign l.objects r true) r false = l.objects
    rw [mapAssign_assign, mapAssign_same l.objects r false hfree]
  rw [hret, hobj, hst]
  exact ⟨rfl, rfl⟩

theorem tryGet_return_restores_witness :
    (TryGet [3, 2, 1] (⟨[(1, false), (2, true), (3, false)], 0, 0⟩ : lockingPoolImpl Nat)).1
        = (true, 3)
    ∧ Return 3 (TryGet [3, 2, 1] (⟨[(1, false), (2, true), (3, false)], 0, 0⟩ : lockingPoolImpl Nat)).2
        = (Outcome.done,
            { (⟨[(1, false), (2, true), (3, false)], 0, 0⟩ : lockingPoolImpl Nat)
                with signals := 0 + 1 })
    ∧ (Return 3
        (TryGet [3, 2, 1] (⟨[(1, false), (2, true), (3, false)], 0, 0⟩ : lockingPoolImpl Nat)).2).2.objects
        = [(1, false), (2, true), (3, false)] :=
  ⟨by decide,
   tryGet_return_restores [3, 2, 1] ⟨[(1, false), (2, true), (3, false)], 0, 0⟩ 3 (by decide)⟩

/-- C19: a successful `Return` makes the next acquisition succeed.  For a tracked
`v` and every visiting order that enumerates the keys, the `TryGet` right after
`Return v` returns `(true, r)` for a resource `r` that is free after the
`Return`; and if every tracked resource other than `v` was in use, `r = v`. -/
theorem tryGet_after_return {T : Type} [DecidableEq T] (v : T) (l : lockingPoolImpl T)
    (order : List T) (hv : v ∈ mapKeys l.objects)
    (horder : order.Perm (mapKeys (Return v l).2.objects)) :
    ∃ r, (TryGet order (Return v l).2).1 = (true, r)
      ∧ r ∈ mapKeys (Return v l).2.objects
      ∧ mapLookup (Return v l).2.objects r = some false
      ∧ ((∀ k ∈ mapKeys l.objects, k ≠ v → mapLookup l.objects k = some true) → r = v) := by
  have hb : ∃ b, mapLookup l.objects v = some b := by
    cases hl : mapLookup l.objects v with
    | none => exact absurd hv ((mapLookup_eq_none_iff l.objects v).mp hl)
    | some b => exact ⟨b, rfl⟩
  obtain ⟨b, hb⟩ := hb
  have hret := Return_of_lookup v l b hb
  have hvfree : mapLookup (Return v l).2.objects v = some false := by
    rw [hret]
    exact mapLookup_assign_self l.objects v false
  have hvmem : v ∈ mapKeys (Return v l).2.objects := by
    rw [Return_keys]
    exact hv
  obtain ⟨r, hs⟩ := scanFree_finds (Return v l).2.objects order horder ⟨v, hvmem, hvfree⟩
  have hr := (scanFree_some (Return v l).2.objects order r hs).2
  refine ⟨r, by simp [TryGet, hs], mem_mapKeys_of_lookup _ r false hr, hr, ?_⟩
  intro hall
  by_contra hne
  have hrmem : r ∈ mapKeys l.objects := by
    rw [← Return_keys v l]
    exact mem_mapKeys_of_lookup _ r false hr
  have hheld := hall r hrmem hne
  rw [hret] at hr
  have hr2 : mapLookup (mapAssign l.objects v false) r = some false := hr
  rw [mapLookup_assign_ne l.objects v r false hne, hheld] at hr2
  simp at hr2

theorem tryGet_after_return_witness :
    (2 : Nat) ∈ mapKeys [(1, true), (2, true), (3, true)]
    ∧ ([3, 1, 2] : List Nat).Perm
        (mapKeys (Return 2 (⟨[(1, true), (2, true), (3, true)], 0, 0⟩ : lockingPoolImpl Nat)).2.objects)
    ∧ ∃ r, (TryGet [3, 1, 2]
          (Return 2 (⟨[(1, true), (2, true), (3, true)], 0, 0⟩ : lockingPoolImpl Nat)).2).1 = (true, r)
      ∧ r ∈ mapKeys (Return 2 (⟨[(1, true), (2, true), (3, true)], 0, 0⟩ : lockingPoolImpl Nat)).2.objects
      ∧ mapLookup (Return 2 (⟨[(1, true), (2, true), (3, true)], 0, 0⟩ : lockingPoolImpl Nat)).2.objects r
          = some false
      ∧ ((∀ k ∈ mapKeys ([(1, true), (2, true), (3, true)] : GoMap Nat), k ≠ 2 →
            mapLookup [(1, true), (2, true), (3, true)] k = some true) → r = 2) :=
  ⟨by decide, by decide,
   tryGet_after_return 2 ⟨[(1, true), (2, true), (3, true)], 0, 0⟩ [3, 1, 2]
     (by decide) (by decide)⟩

/-! ## One entry per distinct resource -/

theorem mapKeys_assign_nodup {T : Type} [DecidableEq T] (m : GoMap T) (k : T) (v : Bool)
    (h : (mapKeys m).Nodup) : (mapKeys (mapAssign m k v)).Nodup := by
  by_cases hk : k ∈ mapKeys m
  · rw [mapKeys_assign_of_mem m k v hk]
    exact h
  · rw [mapKeys_assign_of_not_mem m k v hk, List.nodup_append]
    refine ⟨h, List.nodup_singleton k, ?_⟩
    intro x hx hx2
    rw [List.mem_singleton] at hx2
    subst hx2
    exact hk hx

theorem mapKeys_foldl_is_nodup {T : Type} [DecidableEq T] (items : List T) (m : GoMap T)
    (h : (mapKeys m).Nodup) :
    (mapKeys (items.foldl (fun m v => mapAssign m v false) m)).Nodup := by
  induction items generalizing m with
  | nil => exact h
  | cons a rest ih =>
    rw [List.foldl_cons]
    exact ih _ (mapKeys_assign_nodup m a false h)

theorem New_keys_are_nodup {T : Type} [DecidableEq T] [Inhabited T] (items : Slice T)
    (p : lockingPoolImpl T) (h : New items = Except.ok p) : (mapKeys p.objects).Nodup := by
  rw [(New_ok items p h).2]
  exact mapKeys_foldl_is_nodup (elems items) [] (by simp [mapKeys])

theorem New_keys_length {T : Type} [DecidableEq T] [Inhabited T] (items : List T)
    (p : lockingPoolImpl T) (h : New (some items) = Except.ok p) :
    (mapKeys p.objects).length = items.dedup.length := by
  rw [← List.toFinset_card_of_nodup (New_keys_are_nodup (some items) p h),
    ← List.card_toFinset]
  congr 1
  ext k
  simp only [List.mem_toFinset]
  exact New_keys (some items) p h k

/-- C14: duplicate identities collapse.  For every non-empty list `items`, `New`
rejects nothing and returns a pool holding one entry per distinct value of
`items`: the number of tracked resources is the number of distinct values, not
`len(items)`.  In particular `New [x, x]` is the pool with the single free
entry `x`, on which a first `TryGet` returns `(true, x)` and a second one
`(false, zero value)`. -/
theorem duplicates_collapse {T : Type} [DecidableEq T] [Inhabited T] (items : List T)
    (hne : items ≠ []) :
    (∃ p : lockingPoolImpl T, New (some items) = Except.ok p
        ∧ (mapKeys p.objects).Nodup
        ∧ (mapKeys p.objects).length = items.dedup.length
        ∧ p.objects.length = items.dedup.length)
      ∧ ∀ (x : T) (o1 o2 : List T), o1.Perm [x] →
          (New (some [x, x]) : Except String (lockingPoolImpl T))
              = Except.ok { objects := [(x, false)], zeroT := default, signals := 0 }
            ∧ TryGet o1 { objects := [(x, false)], zeroT := default, signals := 0 }
              = ((true, x), { objects := [(x, true)], zeroT := default, signals := 0 })
            ∧ TryGet o2 { objects := [(x, true)], zeroT := default, signals := 0 }
              = ((false, default), { objects := [(x, true)], zeroT := default, signals := 0 }) := by
  constructor
  · have hok := New_some_ok (T := T) items hne
    refine ⟨_, hok, New_keys_are_nodup (some items) _ hok, New_keys_length items _ hok, ?_⟩
    have hlen := New_keys_length items _ hok
    simpa [mapKeys] using hlen
  · intro x o1 o2 h1
    refine ⟨?_, TryGet_singleton_free x default 0 o1 h1, TryGet_singleton_held x default 0 o2⟩
    simp [New, len, elems, mapAssign]

theorem duplicates_collapse_witness :
    ([5, 7, 5, 5] : List Nat) ≠ []
    ∧ (∃ p : lockingPoolImpl Nat, New (some [5, 7, 5, 5]) = Except.ok p
        ∧ (mapKeys p.objects).Nodup
        ∧ (mapKeys p.objects).length = ([5, 7, 5, 5] : List Nat).dedup.length
        ∧ p.objects.length = ([5, 7, 5, 5] : List Nat).dedup.length)
      ∧ ∀ (x : Nat) (o1 o2 : List Nat), o1.Perm [x] →
          (New (some [x, x]) : Except String (lockingPoolImpl Nat))
              = Except.ok { objects := [(x, false)], zeroT := default, signals := 0 }
            ∧ TryGet o1 { objects := [(x, false)], zeroT := default, signals := 0 }
              = ((true, x), { objects := [(x, true)], zeroT := default, signals := 0 })
            ∧ TryGet o2 { objects := [(x, true)], zeroT := default, signals := 0 }
              = ((false, default), { objects := [(x, true)], zeroT := default, signals := 0 }) :=
  ⟨by decide, duplicates_collapse [5, 7, 5, 5] (by decide)⟩

/-! ## Exhausting the pool -/

theorem freeKeys_TryGet {T : Type} [DecidableEq T] (order : List T) (l : lockingPoolImpl T)
    (r : T) (h : (TryGet order l).1 = (true, r)) (hnd : (mapKeys l.objects).Nodup) :
    freeKeys (TryGet order l).2 = (freeKeys l).erase r := by
  obtain ⟨hs, hst⟩ := TryGet_true order l r h
  have hmem : r ∈ mapKeys l.objects :=
    mem_mapKeys_of_lookup l.objects r false (scanFree_some l.objects order r hs).2
  have hfnd : (freeKeys l).Nodup := List.Nodup.filter _ hnd
  rw [List.Nodup.erase_eq_filter hfnd r, hst]
  simp only [freeKeys, mapKeys_assign_of_mem l.objects r true hmem, List.filter_filter]
  apply List.filter_congr
  intro k _
  by_cases hk : k = r
  · subst hk
    simp [mapLookup_assign_self]
  · simp [mapLookup_assign_ne l.objects r k true hk, hk]

theorem tryGets_exhaust {T : Type} [DecidableEq T] (orders : List (List T))
    (l : lockingPoolImpl T) (hnd : (mapKeys l.objects).Nodup)
    (hperm : ∀ o ∈ orders, o.Perm (mapKeys l.objects))
    (hlen : orders.length = (freeKeys l).length) :
    ∃ rs : List T, (tryGets orders l).1 = rs.map (fun r => (true, r))
      ∧ rs.Perm (freeKeys l)
      ∧ freeKeys (tryGets orders l).2 = []
      ∧ mapKeys (tryGets orders l).2.objects = mapKeys l.objects
      ∧ (tryGets orders l).2.zeroT = l.zeroT := by
  induction orders generalizing l with
  | nil =>
    refine ⟨[], rfl, ?_, ?_, rfl, rfl⟩
    · rw [List.length_eq_zero.mp hlen.symm]
    · exact List.length_eq_zero.mp hlen.symm
  | cons o os ih =>
    have hpo := hperm o (List.mem_cons_self _ _)
    have hfree : ∃ k ∈ mapKeys l.objects, mapLookup l.objects k = some false := by
      cases hf : freeKeys l with
      | nil => rw [hf] at hlen; simp at hlen
      | cons k rest =>
        have hk : k ∈ freeKeys l := by rw [hf]; exact List.mem_cons_self _ _
        have hk2 := List.mem_filter.mp hk
        exact ⟨k, hk2.1, of_decide_eq_true hk2.2⟩
    obtain ⟨r, hs⟩ := scanFree_finds l.objects o hpo hfree
    have ht : (TryGet o l).1 = (true, r) := by simp [TryGet, hs]
    have hrfree := (scanFree_some l.objects o r hs).2
    have hrmem : r ∈ freeKeys l :=
      List.mem_filter.mpr ⟨mem_mapKeys_of_lookup l.objects r false hrfree,
        decide_eq_true hrfree⟩
    have hkeys := TryGet_keys o l
    have hfk := freeKeys_TryGet o l r ht hnd
    have hlen2 : os.length = (freeKeys (TryGet o l).2).length := by
      rw [hfk, List.length_erase_of_mem hrmem, ← hlen]
      simp
    obtain ⟨rs, h1, h2, h3, h4, h5⟩ := ih (TryGet o l).2 (by rw [hkeys]; exact hnd)
      (by
        intro o2 ho2
        rw [hkeys]
        exact hperm o2 (List.mem_cons_of_mem _ ho2))
      hlen2
    refine ⟨r :: rs, ?_, ?_, h3, ?_, ?_⟩
    · simp only [tryGets, List.map_cons, h1, ht]
    · rw [hfk] at h2
      exact (List.Perm.cons r h2).trans (List.perm_cons_erase hrmem).symm
    · simp only [tryGets]
      rw [h4, hkeys]
    · simp only [tryGets]
      rw [h5]
      exact (TryGet_true o l r ht).2 ▸ rfl

theorem freeKeys_of_allFree {T : Type} [DecidableEq T] (l : lockingPoolImpl T)
    (h : AllFree l.objects) : freeKeys l = mapKeys l.objects := by
  apply List.filter_eq_self.mpr
  intro k hk
  cases hl : mapLookup l.objects k with
  | none => exact absurd hk ((mapLookup_eq_none_iff l.objects k).mp hl)
  | some b =>
    rw [h k b hl]
    simp

/-- C17: exhaustion.  For every list `items` with `N ≥ 1` distinct values, `New`
returns a pool on which `N` consecutive `TryGet` calls, for every choice of
visiting orders, all succeed; the `N` resources returned are pairwise distinct
and are exactly the values of `items`; and the `TryGet` after them returns
`(false, zero value)` and changes nothing. -/
theorem exhaustion {T : Type} [DecidableEq T] [Inhabited T] (N : Nat) (items : List T)
    (hN : 1 ≤ N) (hd : items.dedup.length = N) :
    ∃ p : lockingPoolImpl T, New (some items) = Except.ok p
      ∧ ∀ (orders : List (List T)) (last : List T),
          orders.length = N → (∀ o ∈ orders, o.Perm (mapKeys p.objects)) →
          ∃ rs : List T, (tryGets orders p).1 = rs.map (fun r => (true, r))
            ∧ rs.length = N
            ∧ rs.Nodup
            ∧ (∀ k, k ∈ rs ↔ k ∈ items)
            ∧ TryGet last (tryGets orders p).2 = ((false, default), (tryGets orders p).2) := by
  have hne : items ≠ [] := by
    intro h
    rw [h] at hd
    simp at hd
    omega
  obtain ⟨p, hok⟩ : ∃ p : lockingPoolImpl T, New (some items) = Except.ok p :=
    ⟨_, New_some_ok items hne⟩
  refine ⟨p, hok, ?_⟩
  intro orders last hlen hperm
  have hnd := New_keys_are_nodup (some items) p hok
  have hfk := freeKeys_of_allFree p (New_allFree (some items) p hok)
  have hklen := New_keys_length items p hok
  have hz0 : p.zeroT = default := by
    rw [(New_ok (some items) p hok).2]
  obtain ⟨rs, h1, h2, h3, h4, h5⟩ := tryGets_exhaust orders p hnd hperm
    (by rw [hfk, hklen, hd, hlen])
  rw [hfk] at h2
  refine ⟨rs, h1, ?_, ?_, ?_, ?_⟩
  · rw [h2.length_eq, hklen, hd]
  · exact h2.nodup_iff.mpr hnd
  · intro k
    rw [h2.mem_iff]
    exact New_keys (some items) p hok k
  · have hnone : ∀ k ∈ mapKeys (tryGets orders p).2.objects,
        mapLookup (tryGets orders p).2.objects k ≠ some false := by
      intro k hk hfree
      exact List.filter_eq_nil_iff.mp h3 k hk (decide_eq_true hfree)
    have hz : (tryGets orders p).2.zeroT = default := by
      rw [h5, hz0]
    simp [TryGet, scanFree_eq_none_of_no_free _ last hnone, hz]

theorem exhaustion_witness :
    1 ≤ 2 ∧ ([4, 9, 4] : List Nat).dedup.length = 2
    ∧ ∃ p : lockingPoolImpl Nat, New (some [4, 9, 4]) = Except.ok p
      ∧ ∀ (orders : List (List Nat)) (last : List Nat),
          orders.length = 2 → (∀ o ∈ orders, o.Perm (mapKeys p.objects)) →
          ∃ rs : List Nat, (tryGets orders p).1 = rs.map (fun r => (true, r))
            ∧ rs.length = 2
            ∧ rs.Nodup
            ∧ (∀ k, k ∈ rs ↔ k ∈ [4, 9, 4])
            ∧ TryGet last (tryGets orders p).2 = ((false, default), (tryGets orders p).2) :=
  ⟨by decide, by decide, exhaustion 2 [4, 9, 4] (by decide) (by decide)⟩

/-! ## Goroutines inside `Get`: the wake-up -/

theorem getterStep_suspended {T : Type} [DecidableEq T] (s : PoolSystem T)
    (h : ∀ pc ∈ s.getters, pc = GetPc.asleep ∨ ∃ obj, pc = GetPc.returned obj)
    (i : Nat) (order : List T) : getterStep i order s = s := by
  unfold getterStep
  cases hpc : s.getters[i]? with
  | none => rfl
  | some pc =>
    rcases h pc (List.getElem?_mem hpc) with rfl | ⟨obj, rfl⟩
    · rfl
    · rfl

theorem runSys_append {T : Type} [DecidableEq T] (xs ys : List (Event T))
    (s : PoolSystem T) : runSys (xs ++ ys) s = runSys ys (runSys xs s) := by
  induction xs generalizing s with
  | nil => rfl
  | cons e xs ih => simp [runSys, ih]

theorem runSys_suspended {T : Type} [DecidableEq T] (s : PoolSystem T)
    (h : ∀ pc ∈ s.getters, pc = GetPc.asleep ∨ ∃ obj, pc = GetPc.returned obj)
    (es : List (Event T)) (hes : ∀ e ∈ es, ∃ i order, e = Event.getter i order) :
    runSys es s = s := by
  induction es with
  | nil => rfl
  | cons e es ih =>
    obtain ⟨i, order, rfl⟩ := hes _ (List.mem_cons_self _ _)
    rw [runSys, sysStep, getterStep_suspended s h i order]
    exact ih (fun e he => hes e (List.mem_cons_of_mem _ he))

/-- C15, evaluated on `TestConcurrentLocking` (pool `{1}`, A holds `1` through
`Get`, B calls `Get`).  When B is already suspended in `cond.Wait()` at the
time A runs `Return 1`, B is woken, retries and returns `1`.  When A runs
`Return 1` after B's `TryGet` failed but before B reached `cond.Wait()`, B
suspends after the `Return` and no later step of the goroutines in `Get` ever
wakes it, although `1` is free: the pending `Get` does not acquire the freed
resource. -/
theorem blocked_Get_after_Return :
    (New (some [1]) : Except String (lockingPoolImpl Nat))
        = Except.ok concurrentLockingStart.pool
      ∧ runSys [Event.getter 0 [1], Event.getter 1 [1], Event.getter 1 [1], Event.getter 1 [1]]
          concurrentLockingStart
        = { pool := { objects := [(1, true)], zeroT := 0, signals := 0 },
            condMuHeld := false, notifyList := [1],
            getters := [GetPc.returned 1, GetPc.asleep] }
      ∧ runSys [Event.getter 0 [1], Event.getter 1 [1], Event.getter 1 [1], Event.getter 1 [1],
            Event.callReturn 1, Event.getter 1 [1], Event.getter 1 [1], Event.getter 1 [1]]
          concurrentLockingStart
        = { pool := { objects := [(1, true)], zeroT := 0, signals := 1 },
            condMuHeld := false, notifyList := [],
            getters := [GetPc.returned 1, GetPc.returned 1] }
      ∧ ∀ es : List (Event Nat), (∀ e ∈ es, ∃ i order, e = Event.getter i order) →
          runSys ([Event.getter 0 [1], Event.getter 1 [1], Event.callReturn 1,
              Event.getter 1 [1], Event.getter 1 [1]] ++ es) concurrentLockingStart
            = { pool := { objects := [(1, false)], zeroT := 0, signals := 1 },
                condMuHeld := false, notifyList := [1],
                getters := [GetPc.returned 1, GetPc.asleep] } := by
  refine ⟨by rfl, by decide, by decide, ?_⟩
  intro es hes
  rw [runSys_append]
  have hrun : runSys [Event.getter 0 [1], Event.getter 1 [1], Event.callReturn 1,
      Event.getter 1 [1], Event.getter 1 [1]] concurrentLockingStart
      = { pool := { objects := [(1, false)], zeroT := 0, signals := 1 },
          condMuHeld := false, notifyList := [1],
          getters := [GetPc.returned 1, GetPc.asleep] } := by decide
  rw [hrun]
  apply runSys_suspended _ _ es hes
  intro pc hpc
  simp only [List.mem_cons, List.mem_singleton, List.not_mem_nil, or_false] at hpc
  rcases hpc with rfl | rfl
  · exact Or.inr ⟨1, rfl⟩
  · exact Or.inl rfl

/-- C16, evaluated on the same two goroutines.  After B's `TryGet` has failed, B
stands before `l.condMu.Lock()` and is not yet on the notify list of `cond`; the
`Return 1` that A runs at that point marks `1` free and issues its `Signal`
(the count of signals goes from `0` to `1`) while the notify list is empty, so
nobody is woken; B then locks `condMu` and calls `cond.Wait()`.  B is left
suspended with `1` free and the notification gone: the decision to wait and
the start of the wait are not atomic with respect to `l.mu`. -/
theorem lost_wakeup :
    runSys [Event.getter 0 [1], Event.getter 1 [1]] concurrentLockingStart
        = { pool := { objects := [(1, true)], zeroT := 0, signals := 0 },
            condMuHeld := false, notifyList := [],
            getters := [GetPc.returned 1, GetPc.condLock] }
      ∧ sysStep (Event.callReturn 1)
          { pool := { objects := [(1, true)], zeroT := 0, signals := 0 },
            condMuHeld := false, notifyList := [],
            getters := [GetPc.returned 1, GetPc.condLock] }
        = { pool := { objects := [(1, false)], zeroT := 0, signals := 1 },
            condMuHeld := false, notifyList := [],
            getters := [GetPc.returned 1, GetPc.condLock] }
      ∧ runSys [Event.getter 1 [1], Event.getter 1 [1]]
          { pool := { objects := [(1, false)], zeroT := 0, signals := 1 },
            condMuHeld := false, notifyList := [],
            getters := [GetPc.returned 1, GetPc.condLock] }
        = { pool := { objects := [(1, false)], zeroT := 0, signals := 1 },
            condMuHeld := false, notifyList := [1],
            getters := [GetPc.returned 1, GetPc.asleep] }
      ∧ mapLookup [((1 : Nat), false)] 1 = some false
      ∧ ∀ (i : Nat) (order : List Nat),
          getterStep i order
            { pool := { objects := [(1, false)], zeroT := 0, signals := 1 },
              condMuHeld := false, notifyList := [1],
              getters := [GetPc.returned 1, GetPc.asleep] }
          = { pool := { objects := [(1, false)], zeroT := 0, signals := 1 },
              condMuHeld := false, notifyList := [1],
              getters := [GetPc.returned 1, GetPc.asleep] } := by
  refine ⟨by decide, by decide, by decide, by decide, ?_⟩
  intro i order
  apply getterStep_suspended
  intro pc hpc
  simp only [List.mem_cons, List.mem_singleton, List.not_mem_nil, or_false] at hpc
  rcases hpc with rfl | rfl
  · exact Or.inr ⟨1, rfl⟩
  · exact Or.inl rfl

end locking_pool
